import Mathlib

/-!
Verification of the react-native-decompiler orchestrator and the Babel
array-spread module finder, as a shallow embedding in Lean 4.

The embedding follows `src/taggers/npmModuleFinders/babelModuleFinder.ts`
together with the orchestrator source shipped with it: the module record,
the regex fingerprint tagger, cache validation and loading, the entry
reachability filter, the transitive-ignore fixed point, and the
file-saving and cache-writing guards.
-/

namespace Decompiler

/-- The in-memory representation of one `__d(...)` registration: `moduleId`,
optional `moduleName`, the dependency id list, the original source text, the
(printed) working code, and the tagging flags `ignored`, `isNpmModule`,
`npmModuleName`. -/
structure Module where
  moduleId : Nat
  moduleName : Option String
  dependencies : List Nat
  originalCode : String
  moduleCode : String
  ignored : Bool
  isNpmModule : Bool
  npmModuleName : Option String
deriving DecidableEq, Repr

/-- One token of a JavaScript regex made only of literal characters and the
metacharacter `.` (any character except a line terminator). -/
inductive RTok where
  | lit : Char → RTok
  | anyChar : RTok
deriving DecidableEq, Repr

/-- Whether one regex token matches one character. `.` in a JavaScript regex
without the `s` flag matches anything but a line terminator. -/
def tokMatches : RTok → Char → Bool
  | RTok.lit c, d => c == d
  | RTok.anyChar, d => !(d == '\n') && !(d == '\r') && !(d == '\u2028') && !(d == '\u2029')

/-- Whether the token list matches a prefix of the character list. -/
def matchesAt : List RTok → List Char → Bool
  | [], _ => true
  | _ :: _, [] => false
  | t :: ts, c :: cs => tokMatches t c && matchesAt ts cs

/-- `RegExp.test`: the token list matches starting at some position. -/
def regexTestList (toks : List RTok) : List Char → Bool
  | [] => matchesAt toks []
  | c :: cs => matchesAt toks (c :: cs) || regexTestList toks cs

/-- `RegExp.test` on a string. -/
def regexTest (toks : List RTok) (s : String) : Bool :=
  regexTestList toks s.data

/-- Literal tokens of a plain string. -/
def litToks (s : String) : List RTok :=
  s.data.map RTok.lit

/-- Tokens of `.=.\(.\[d]\)`: one minified var initializer of the helper. -/
def derefGroup (d : Char) : List RTok :=
  [RTok.anyChar, RTok.lit '=', RTok.anyChar, RTok.lit '(', RTok.anyChar,
   RTok.lit '[', RTok.lit d, RTok.lit ']', RTok.lit ')']

/-- Tokens of `.\(.\)`: a one-argument minified call. -/
def callShape : List RTok :=
  [RTok.anyChar, RTok.lit '(', RTok.anyChar, RTok.lit ')']

/-- The minified array-spread helper fingerprint of `BabelModuleFinder.evaluate`,
token for token the regex literal of the source. -/
def arraySpreadRegex : List RTok :=
  [RTok.lit '\x7b'] ++ litToks "var " ++
  derefGroup '0' ++ [RTok.lit ','] ++
  derefGroup '1' ++ [RTok.lit ','] ++
  derefGroup '2' ++ [RTok.lit ','] ++
  derefGroup '3' ++ [RTok.lit ';'] ++
  [RTok.anyChar, RTok.lit '.'] ++ litToks "exports=function" ++
  [RTok.lit '(', RTok.anyChar, RTok.lit ')', RTok.lit '\x7b'] ++
  litToks "return " ++
  callShape ++ litToks "||" ++ callShape ++ litToks "||" ++ callShape ++ litToks "||" ++
  [RTok.anyChar, RTok.lit '(', RTok.lit ')'] ++
  [RTok.lit ';', RTok.lit '\x7d', RTok.lit ';', RTok.lit '\x7d']

/-- Modelled from the spec: `tagAsNpmModule(packageName)` lives in the module
finder base class, whose file is not among the sources; the spec states it
sets `isNpmModule=true`, `npmModuleName=packageName`, `ignored=true`. -/
def tagAsNpmModule (packageName : String) (m : Module) : Module :=
  { m with isNpmModule := true, npmModuleName := some packageName, ignored := true }

/-- `BabelModuleFinder.evaluate`: tag the module as the array-spread Babel
helper when its original code matches the fingerprint. -/
def BabelModuleFinder.evaluate (m : Module) : Module :=
  if regexTest arraySpreadRegex m.originalCode then
    tagAsNpmModule "@babel/runtime/helpers/toConsumableArray" m
  else m

/-- A concrete minified module body that matches the fingerprint. -/
def c1MatchingCode : String :=
  "__d(function(g,r,i,a,m,e,d)\x7bvar t=r(d[0]),u=r(d[1]),c=r(d[2]),f=r(d[3]);m.exports=function(n)\x7breturn t(n)||u(n)||c(n)||f();\x7d;\x7d,5,[1,2,3,4])"

/-- A concrete module carrying the matching code, untagged. -/
def c1Module : Module :=
  { moduleId := 5, moduleName := none, dependencies := [1, 2, 3, 4],
    originalCode := c1MatchingCode, moduleCode := "", ignored := false,
    isNpmModule := false, npmModuleName := none }

/-- C1: a module whose originalCode matches the array-spread fingerprint is
tagged `isNpmModule=true`, `npmModuleName='@babel/runtime/helpers/toConsumableArray'`,
`ignored=true` by the Babel fingerprint tagger; a non-matching module is left
unchanged. -/
theorem babelFinder_spec (m : Module) :
    (regexTest arraySpreadRegex m.originalCode = true →
      (BabelModuleFinder.evaluate m).isNpmModule = true ∧
      (BabelModuleFinder.evaluate m).npmModuleName =
        some "@babel/runtime/helpers/toConsumableArray" ∧
      (BabelModuleFinder.evaluate m).ignored = true) ∧
    (regexTest arraySpreadRegex m.originalCode = false →
      BabelModuleFinder.evaluate m = m) := by
  constructor <;> intro h <;>
    simp [BabelModuleFinder.evaluate, tagAsNpmModule, h]

/-- C1 sanity instance: the tagger does tag the concrete matching module. -/
theorem babelFinder_spec_witness :
    (BabelModuleFinder.evaluate c1Module).isNpmModule = true ∧
    (BabelModuleFinder.evaluate c1Module).npmModuleName =
      some "@babel/runtime/helpers/toConsumableArray" ∧
    (BabelModuleFinder.evaluate c1Module).ignored = true :=
  (babelFinder_spec c1Module).1 (by decide)

/-- One serialized module record of the cache file: `moduleId`,
`originalCode`, the tagging flags, and the dependency ids. -/
structure CachedModule where
  moduleId : Nat
  originalCode : String
  ignored : Bool
  isNpmModule : Bool
  npmModuleName : Option String
  dependencies : List Nat
deriving DecidableEq, Repr

/-- The cache file: the bundle checksum and the module records. -/
structure CachedFile where
  checksum : String
  modules : List CachedModule
deriving DecidableEq, Repr

/-- Cache validation: with a cache file present, the digest of the full bundle
text is recomputed and compared against the stored checksum; a mismatch
discards the cache. -/
def validateCache (hash : String → String) (inputJsFile : String) :
    Option CachedFile → Option CachedFile
  | none => none
  | some cacheFile =>
    if cacheFile.checksum == hash inputJsFile then some cacheFile else none

/-- `validCachedModules`: the records the cache-loading branch iterates over.
Under `agressiveCache`, records with `ignored && !isNpmModule` are filtered
out. -/
def validCachedModules (agressiveCache : Bool) (records : List CachedModule) :
    List CachedModule :=
  records.filter (fun cached => !agressiveCache || !cached.ignored || cached.isNpmModule)

/-- `canIgnoreModuleBody`: under `agressiveCache`, an NPM record whose original
code is longer than 128 characters is parsed from an empty factory stub. -/
def canIgnoreModuleBody (agressiveCache : Bool) (cached : CachedModule) : Bool :=
  agressiveCache && cached.isNpmModule && decide (128 < cached.originalCode.length)

/-- The stub text `__d(function(g,r,i,a,m,e,d)\x7b\x7d,<id>,[])`. -/
def emptyFactoryStub (moduleId : Nat) : String :=
  "__d(function(g,r,i,a,m,e,d)\x7b\x7d," ++ toString moduleId ++ ",[])"

/-- Modelled from the spec for the parts outside the sources (the `Module`
constructor and `loadCache`): the module registered for a cached record
carries the cached id, flags and original code; when `canIgnoreModuleBody`
holds, its code and dependency list come from the empty factory stub. -/
def moduleOfCached (agressiveCache : Bool) (cached : CachedModule) : Module :=
  if canIgnoreModuleBody agressiveCache cached then
    { moduleId := cached.moduleId, moduleName := none, dependencies := [],
      originalCode := cached.originalCode,
      moduleCode := emptyFactoryStub cached.moduleId,
      ignored := cached.ignored, isNpmModule := cached.isNpmModule,
      npmModuleName := cached.npmModuleName }
  else
    { moduleId := cached.moduleId, moduleName := none,
      dependencies := cached.dependencies,
      originalCode := cached.originalCode, moduleCode := cached.originalCode,
      ignored := cached.ignored, isNpmModule := cached.isNpmModule,
      npmModuleName := cached.npmModuleName }

/-- The cache-loading branch: every record surviving `validCachedModules` is
registered in the module graph, in order. -/
def loadCachedModules (agressiveCache : Bool) (cacheFile : CachedFile) :
    List Module :=
  (validCachedModules agressiveCache cacheFile.modules).map
    (moduleOfCached agressiveCache)

/-- The module list a run works on: the cached records when the checksum
validates, the freshly parsed modules otherwise. -/
def loadedModules (hash : String → String) (inputJsFile : String)
    (cacheFile : Option CachedFile) (agressiveCache : Bool)
    (freshModules : List Module) : List Module :=
  match validateCache hash inputJsFile cacheFile with
  | some cacheFile => loadCachedModules agressiveCache cacheFile
  | none => freshModules

/-- C6: with a cache file present, the recomputed digest of the full bundle
text is compared to the stored checksum; a mismatch discards the cache and the
run proceeds on the fresh modules, while a match makes the run use the cached
records. -/
theorem cacheChecksum_spec (hash : String → String) (inputJsFile : String)
    (cacheFile : CachedFile) (agressiveCache : Bool) (freshModules : List Module) :
    (cacheFile.checksum ≠ hash inputJsFile →
      validateCache hash inputJsFile (some cacheFile) = none ∧
      loadedModules hash inputJsFile (some cacheFile) agressiveCache freshModules =
        freshModules) ∧
    (cacheFile.checksum = hash inputJsFile →
      validateCache hash inputJsFile (some cacheFile) = some cacheFile ∧
      loadedModules hash inputJsFile (some cacheFile) agressiveCache freshModules =
        loadCachedModules agressiveCache cacheFile) := by
  constructor <;> intro h <;>
    simp [validateCache, loadedModules, h]

/-- A record cached as ignored and not an NPM module. -/
def c2Cached : CachedModule :=
  { moduleId := 7, originalCode := "__d(function(g,r,i,a,m,e,d)\x7bbig\x7d,7,[])",
    ignored := true, isNpmModule := false, npmModuleName := none,
    dependencies := [] }

/-- C2 counterexample: in aggressive cache mode, a record cached as
`ignored && !isNpmModule` is dropped by the valid-record filter, so it is not
registered in the module graph at all. -/
theorem aggressiveCacheDrop_counterexample :
    c2Cached.ignored = true ∧ c2Cached.isNpmModule = false ∧
    validCachedModules true [c2Cached] = [] ∧
    loadCachedModules true { checksum := "c", modules := [c2Cached] } = [] :=
  ⟨rfl, rfl, rfl, rfl⟩

/-- C2 (amended): in aggressive cache mode, a cached record is registered in
the module graph iff it is not both ignored and non-NPM — records with
`ignored && !isNpmModule` are dropped — and the body of a registered record is
replaced by the empty factory stub iff the record is an NPM module with more
than 128 characters of original code. -/
theorem aggressiveCacheRegistration_spec (cached : CachedModule)
    (cacheFile : CachedFile) :
    (cached ∈ validCachedModules true cacheFile.modules ↔
      cached ∈ cacheFile.modules ∧
        (cached.ignored = false ∨ cached.isNpmModule = true)) ∧
    (moduleOfCached true cached ∈ loadCachedModules true cacheFile ↔
      ∃ c ∈ validCachedModules true cacheFile.modules,
        moduleOfCached true c = moduleOfCached true cached) ∧
    (canIgnoreModuleBody true cached = true ↔
      cached.isNpmModule = true ∧ 128 < cached.originalCode.length) ∧
    (canIgnoreModuleBody true cached = true →
      (moduleOfCached true cached).moduleCode = emptyFactoryStub cached.moduleId) := by
  refine ⟨?_, ?_, ?_, ?_⟩
  · simp [validCachedModules, List.mem_filter, Bool.or_eq_true, Bool.not_eq_true',
      and_comm, or_comm]
  · simp [loadCachedModules, List.mem_map]
  · simp [canIgnoreModuleBody]
  · intro h
    simp [moduleOfCached, h]

/-- A filesystem snapshot: path-content pairs, most recent write first. -/
def fsLookup (fs : List (String × String)) (filePath : String) : Option String :=
  (fs.find? (fun entry => entry.1 == filePath)).map (fun entry => entry.2)

/-- `writeFileSync`: record the new content for the path. -/
def fsWrite (fs : List (String × String)) (filePath content : String) :
    List (String × String) :=
  (filePath, content) :: fs

/-- One generated output record: the module id and the generated code. -/
structure GeneratedFile where
  name : Nat
  code : String
deriving DecidableEq, Repr

/-- The output path `<out>/<moduleId>.js`. -/
def outputFilePath (out : String) (name : Nat) : String :=
  out ++ "/" ++ toString name ++ ".js"

/-- The save step for one generated file: write only when the file is absent
or its current content differs from the generated code; the Bool records
whether a write happened. -/
def saveGeneratedFile (out : String) (fs : List (String × String))
    (file : GeneratedFile) : List (String × String) × Bool :=
  let filePath := outputFilePath out file.name
  match fsLookup fs filePath with
  | none => (fsWrite fs filePath file.code, true)
  | some existing =>
    if existing == file.code then (fs, false)
    else (fsWrite fs filePath file.code, true)

/-- C7: `<out>/<moduleId>.js` is written iff it is absent or its content
differs from the generated code; when the existing content equals the
generated code the filesystem is left untouched; after the step the path
holds the generated code. -/
theorem saveGeneratedFile_spec (out : String) (fs : List (String × String))
    (file : GeneratedFile) :
    ((saveGeneratedFile out fs file).2 = true ↔
      fsLookup fs (outputFilePath out file.name) ≠ some file.code) ∧
    (fsLookup fs (outputFilePath out file.name) = some file.code →
      (saveGeneratedFile out fs file).1 = fs) ∧
    fsLookup (saveGeneratedFile out fs file).1 (outputFilePath out file.name) =
      some file.code := by
  have hw : ∀ c : String,
      fsLookup (fsWrite fs (outputFilePath out file.name) c)
        (outputFilePath out file.name) = some c := by
    intro c
    simp [fsLookup, fsWrite, List.find?]
  rcases hlook : fsLookup fs (outputFilePath out file.name) with _ | existing
  · refine ⟨?_, ?_, ?_⟩ <;> simp [saveGeneratedFile, hlook, hw]
  · by_cases heq : existing = file.code
    · subst heq
      refine ⟨?_, ?_, ?_⟩ <;> simp [saveGeneratedFile, hlook]
    · refine ⟨?_, ?_, ?_⟩ <;> simp [saveGeneratedFile, hlook, hw, heq]

/-- The command line options the orchestrator consults (`input` stands for the
source's `in`, a reserved word here). Missing options are `none`. -/
structure CmdArgs where
  input : Option String
  out : Option String
  entry : Option Nat
  agressiveCache : Bool
  decompileIgnored : Bool
deriving DecidableEq, Repr

/-- JavaScript truthiness of a string option: missing and empty are falsy. -/
def strTruthy : Option String → Bool
  | none => false
  | some s => !(s == "")

/-- JavaScript truthiness of the numeric `entry` option: missing and 0 are
falsy. -/
def numTruthy : Option Nat → Bool
  | none => false
  | some n => !(n == 0)

/-- `if (!argValues.in || !argValues.out) ... process.exit(1)`. -/
def checkRequiredArgs (args : CmdArgs) : Except Nat Unit :=
  if !(strTruthy args.input) || !(strTruthy args.out) then Except.error 1
  else Except.ok ()

/-- `if (modules.length === 0) ... process.exit(1)`: the NoModulesFound
check. -/
def checkModulesFound (modules : List Module) : Except Nat Unit :=
  if modules.length == 0 then Except.error 1 else Except.ok ()

/-- The exit-capable run prefix: the required-option check, then module
enumeration and the NoModulesFound check. -/
def preludeRun (args : CmdArgs) (modules : List Module) :
    Except Nat (List Module) :=
  match checkRequiredArgs args with
  | Except.error code => Except.error code
  | Except.ok _ =>
    match checkModulesFound modules with
    | Except.error code => Except.error code
    | Except.ok _ => Except.ok modules

/-- C8: the run exits with a non-zero code whenever `in` or `out` is missing
and whenever zero modules are found; an exitless run prefix had both options
truthy and a non-empty module set. -/
theorem exitNonzero_spec (args : CmdArgs) (modules : List Module) :
    ((args.input = none ∨ args.out = none ∨ modules = []) →
      ∃ code, preludeRun args modules = Except.error code ∧ code ≠ 0) ∧
    (∀ result, preludeRun args modules = Except.ok result →
      strTruthy args.input = true ∧ strTruthy args.out = true ∧ modules ≠ []) := by
  constructor
  · rintro (h | h | h)
    · have hf : strTruthy args.input = false := by simp [strTruthy, h]
      exact ⟨1, by simp [preludeRun, checkRequiredArgs, hf], one_ne_zero⟩
    · have hf : strTruthy args.out = false := by simp [strTruthy, h]
      exact ⟨1, by simp [preludeRun, checkRequiredArgs, hf], one_ne_zero⟩
    · rcases hin : strTruthy args.input with _ | _
      · exact ⟨1, by simp [preludeRun, checkRequiredArgs, hin], one_ne_zero⟩
      · rcases hout : strTruthy args.out with _ | _
        · exact ⟨1, by simp [preludeRun, checkRequiredArgs, hin, hout], one_ne_zero⟩
        · exact ⟨1, by simp [preludeRun, checkRequiredArgs, checkModulesFound,
            hin, hout, h], one_ne_zero⟩
  · intro result h
    simp only [preludeRun] at h
    split at h
    · exact Except.noConfusion h
    · rename_i u hreq
      split at h
      · exact Except.noConfusion h
      · rename_i u2 hmods
        refine ⟨?_, ?_, ?_⟩
        · by_contra hin
          have hf : strTruthy args.input = false := by
            simpa using hin
          simp [checkRequiredArgs, hf] at hreq
        · by_contra hout
          have hf : strTruthy args.out = false := by
            simpa using hout
          simp [checkRequiredArgs, hf] at hreq
        · intro hm
          simp [checkModulesFound, hm] at hmods

/-- The guard of the entry filtering stage:
`argValues.entry != null && (!argValues.agressiveCache || !cacheFile)`. -/
def entryFilterGuard (args : CmdArgs) (cacheLoaded : Bool) : Bool :=
  args.entry.isSome && (!args.agressiveCache || !cacheLoaded)

/-- The guard of cache persistence:
`argValues.entry && !argValues.agressiveCache`, with JavaScript truthiness on
the number. -/
def writeCacheGuard (args : CmdArgs) : Bool :=
  numTruthy args.entry && !args.agressiveCache

/-- C9: with `entry = 0` the null test of the filtering guard passes (the
stage runs whenever its cache conjunct allows) yet the cache-persistence guard
is false, because 0 is falsy; with any non-zero entry and no aggressive cache,
the cache is written. -/
theorem entryZeroCacheGuard_spec (args : CmdArgs) (cacheLoaded : Bool) :
    (args.entry = some 0 →
      args.entry.isSome = true ∧
      (args.agressiveCache = false → entryFilterGuard args cacheLoaded = true) ∧
      (cacheLoaded = false → entryFilterGuard args cacheLoaded = true) ∧
      writeCacheGuard args = false) ∧
    (∀ n, args.entry = some n → n ≠ 0 → args.agressiveCache = false →
      entryFilterGuard args cacheLoaded = true ∧ writeCacheGuard args = true) := by
  constructor
  · intro h
    refine ⟨by simp [h], ?_, ?_, ?_⟩ <;>
      simp [entryFilterGuard, writeCacheGuard, numTruthy, h] <;> intro hh <;> simp [hh]
  · intro n hn hnz hagg
    simp [entryFilterGuard, writeCacheGuard, numTruthy, hn, hnz, hagg]

/-- `modules.filter(otherMod => otherMod.dependencies.includes(mod.moduleId))`:
the reverse dependents of a module. -/
def dependentModules (modules : List Module) (mod : Module) : List Module :=
  modules.filter (fun otherMod => otherMod.dependencies.contains mod.moduleId)

/-- The predicate of `calculateModulesToIgnore`: not yet ignored, at least one
reverse dependent, and every reverse dependent either ignored or itself among
the module's own dependencies. -/
def shouldIgnore (modules : List Module) (mod : Module) : Bool :=
  !mod.ignored && decide (0 < (dependentModules modules mod).length) &&
    (dependentModules modules mod).all
      (fun otherMod => otherMod.ignored || mod.dependencies.contains otherMod.moduleId)

/-- One round of the marking loop: every module satisfying the predicate is
marked ignored, simultaneously (the module list to ignore is computed before
any flag changes). -/
def markIgnored (modules : List Module) : List Module :=
  modules.map
    (fun mod => if shouldIgnore modules mod then { mod with ignored := true } else mod)

/-- The `while (modulesToIgnore.length)` loop, with fuel. -/
def ignoreLoop : Nat → List Module → List Module
  | 0, modules => modules
  | fuel + 1, modules =>
    if modules.any (shouldIgnore modules) then ignoreLoop fuel (markIgnored modules)
    else modules

/-- The transitive-ignore stage. Under `agressiveCache`,
`calculateModulesToIgnore` returns before filtering, so the list of modules to
ignore stays empty and the loop body never runs. -/
def ignorePropagate (agressiveCache : Bool) (modules : List Module) : List Module :=
  if agressiveCache then modules else ignoreLoop modules.length modules

/-- The modules not yet ignored, counted. -/
def notIgnoredCount (modules : List Module) : Nat :=
  modules.countP (fun mod => !mod.ignored)

theorem countP_le_of_imp {α : Type} (p q : α → Bool) (l : List α)
    (hle : ∀ x ∈ l, q x = true → p x = true) :
    l.countP q ≤ l.countP p := by
  induction l with
  | nil => simp
  | cons a t ih =>
    have hta : ∀ x ∈ t, q x = true → p x = true := fun x hx => hle x (by simp [hx])
    have hih := ih hta
    rcases hq : q a with _ | _
    · rcases hp : p a with _ | _ <;> simp [List.countP_cons, hq, hp] <;> omega
    · have hp := hle a (by simp) hq
      simp [List.countP_cons, hq, hp]
      omega

theorem countP_lt_of_witness {α : Type} (p q : α → Bool) (l : List α)
    (hle : ∀ x ∈ l, q x = true → p x = true)
    (hx : ∃ x ∈ l, p x = true ∧ q x = false) :
    l.countP q < l.countP p := by
  induction l with
  | nil => simp at hx
  | cons a t ih =>
    have hta : ∀ x ∈ t, q x = true → p x = true := fun x hxt => hle x (by simp [hxt])
    have hle2 := countP_le_of_imp p q t hta
    rcases hx with ⟨x, hmem, hp, hq⟩
    rcases List.mem_cons.mp hmem with rfl | hmt
    · simp [List.countP_cons, hp, hq]
      omega
    · have hlt := ih hta ⟨x, hmt, hp, hq⟩
      rcases hqa : q a with _ | _
      · rcases hpa : p a with _ | _ <;> simp [List.countP_cons, hqa, hpa] <;> omega
      · have hpa := hle a (by simp) hqa
        simp [List.countP_cons, hqa, hpa]
        omega

/-- One marking round strictly shrinks the non-ignored count when some module
satisfies the predicate. -/
theorem notIgnoredCount_markIgnored_lt (modules : List Module)
    (h : modules.any (shouldIgnore modules) = true) :
    notIgnoredCount (markIgnored modules) < notIgnoredCount modules := by
  unfold notIgnoredCount markIgnored
  rw [List.countP_map]
  refine countP_lt_of_witness _ _ modules ?_ ?_
  · intro x _ hq
    simp only [Function.comp] at hq
    by_cases hs : shouldIgnore modules x = true
    · simp [hs] at hq
    · have hs2 : shouldIgnore modules x = false := by
        rcases hb : shouldIgnore modules x with _ | _
        · rfl
        · exact absurd hb hs
      simpa [hs2] using hq
  · rcases List.any_eq_true.mp h with ⟨x, hmem, hs⟩
    have hnotig : x.ignored = false := by
      rcases hb : x.ignored with _ | _
      · rfl
      · unfold shouldIgnore at hs
        simp [hb] at hs
    refine ⟨x, hmem, by simp [hnotig], by simp [Function.comp, hs]⟩

/-- With enough fuel the loop exits only at a fixed point: no module of the
result satisfies the predicate over the result. -/
theorem ignoreLoop_fixed (fuel : Nat) :
    ∀ modules : List Module, notIgnoredCount modules ≤ fuel →
    (ignoreLoop fuel modules).any (shouldIgnore (ignoreLoop fuel modules)) = false := by
  induction fuel with
  | zero =>
    intro modules hc
    have hz : notIgnoredCount modules = 0 := Nat.le_zero.mp hc
    have hall : ∀ mod ∈ modules, ¬((!mod.ignored) = true) :=
      List.countP_eq_zero.mp hz
    simp only [ignoreLoop]
    rw [List.any_eq_false]
    intro mod hmem
    have hig : mod.ignored = true := by
      have := hall mod hmem
      simpa using this
    unfold shouldIgnore
    simp [hig]
  | succ n ih =>
    intro modules hc
    simp only [ignoreLoop]
    rcases hany : modules.any (shouldIgnore modules) with _ | _
    · rw [if_neg (by simp [hany])]
      exact hany
    · rw [if_pos (by simp [hany])]
      refine ih (markIgnored modules) ?_
      have := notIgnoredCount_markIgnored_lt modules hany
      omega

/-- C4 counterexample data: a non-ignored NPM module. -/
def c4NpmModule : Module :=
  { moduleId := 0, moduleName := none, dependencies := [], originalCode := "",
    moduleCode := "", ignored := false, isNpmModule := true,
    npmModuleName := some "react" }

/-- C4 counterexample data: its only reverse dependent, already ignored. -/
def c4Dependent : Module :=
  { moduleId := 1, moduleName := none, dependencies := [0], originalCode := "",
    moduleCode := "", ignored := true, isNpmModule := false,
    npmModuleName := none }

/-- C4 counterexample: a marking round marks the non-ignored NPM module 0 (its
only reverse dependent, module 1, is ignored), although the claim's predicate
admits only non-NPM modules: the code never tests `isNpmModule`. -/
theorem ignorePropagation_counterexample :
    c4NpmModule.isNpmModule = true ∧ c4NpmModule.ignored = false ∧
    shouldIgnore [c4NpmModule, c4Dependent] c4NpmModule = true ∧
    (markIgnored [c4NpmModule, c4Dependent]).map (fun mod => mod.ignored) =
      [true, true] := by
  refine ⟨rfl, rfl, by decide, by decide⟩

/-- C4 (amended): each round marks as ignored exactly the modules satisfying
the predicate (with no test of `isNpmModule`), and at the loop's fixed point
no module of the result — in particular no non-ignored, non-NPM module — still
satisfies the predicate over the result. -/
theorem ignorePropagation_fixedPoint (modules : List Module) :
    (∀ i : Nat, (markIgnored modules).get? i = (modules.get? i).map
      (fun mod =>
        if shouldIgnore modules mod then { mod with ignored := true } else mod)) ∧
    (∀ mod, mod ∈ ignorePropagate false modules →
      shouldIgnore (ignorePropagate false modules) mod = false) := by
  constructor
  · intro i
    simp [markIgnored]
  · intro mod hmem
    have hcl : notIgnoredCount modules ≤ modules.length := by
      unfold notIgnoredCount
      exact List.countP_le_length _
    have hfix := ignoreLoop_fixed modules.length modules hcl
    have hrw : ignorePropagate false modules = ignoreLoop modules.length modules := rfl
    rw [hrw] at hmem ⊢
    have hne := List.any_eq_false.mp hfix mod hmem
    rcases hb : shouldIgnore (ignoreLoop modules.length modules) mod with _ | _
    · rfl
    · exact absurd hb hne

/-- C10: under the aggressive cache the transitive-ignore stage is a no-op on
the module graph: every module, and in particular every ignored flag, is left
exactly as it was. -/
theorem aggressivePropagation_noop (modules : List Module) :
    ignorePropagate true modules = modules := rfl

/-- Modelled from the spec: a tagger's `ignore(reason)` (its module file is
not among the sources) sets `ignored=true`. -/
def ignoreModule (mod : Module) : Module :=
  { mod with ignored := true }

/-- Modelled from the spec: editors, decompilers and code generation rewrite
or read the module's working code only. -/
def applyRewrite (f : String → String) (mod : Module) : Module :=
  { mod with moduleCode := f mod.moduleCode }

/-- One pipeline stage as it acts on the module graph: the Babel fingerprint
tagger, a tagger calling `tagAsNpmModule` on the modules it recognizes, a
tagger calling `ignore` on the modules it recognizes, an editing/decompiling/
output stage rewriting working code, and the transitive-ignore stage. -/
inductive Stage where
  | tagBabel : Stage
  | tagNpmWhen : (Module → Bool) → String → Stage
  | ignoreWhen : (Module → Bool) → Stage
  | rewrite : (String → String) → Stage
  | propagate : Bool → Stage

/-- Run one stage over the module graph. -/
def applyStage : Stage → List Module → List Module
  | Stage.tagBabel, modules => modules.map BabelModuleFinder.evaluate
  | Stage.tagNpmWhen recognizes packageName, modules =>
    modules.map (fun mod =>
      if recognizes mod then tagAsNpmModule packageName mod else mod)
  | Stage.ignoreWhen recognizes, modules =>
    modules.map (fun mod => if recognizes mod then ignoreModule mod else mod)
  | Stage.rewrite f, modules => modules.map (applyRewrite f)
  | Stage.propagate agressiveCache, modules => ignorePropagate agressiveCache modules

/-- Run a sequence of stages over the module graph. -/
def runStages : List Stage → List Module → List Module
  | [], modules => modules
  | stage :: rest, modules => runStages rest (applyStage stage modules)

/-- Marking rounds keep each position's ignored flag once set. -/
theorem markIgnored_ignored_monotone (modules : List Module) (i : Nat)
    (h : (modules.get? i).map (fun mod => mod.ignored) = some true) :
    ((markIgnored modules).get? i).map (fun mod => mod.ignored) = some true := by
  rcases Option.map_eq_some'.mp h with ⟨mod, hmod, hig⟩
  unfold markIgnored
  rw [List.get?_map, hmod]
  by_cases hs : shouldIgnore modules mod = true <;> simp [hs, hig]

/-- The ignore loop keeps each position's ignored flag once set. -/
theorem ignoreLoop_ignored_monotone (fuel : Nat) :
    ∀ (modules : List Module) (i : Nat),
    (modules.get? i).map (fun mod => mod.ignored) = some true →
    ((ignoreLoop fuel modules).get? i).map (fun mod => mod.ignored) = some true := by
  induction fuel with
  | zero => intro modules i h; exact h
  | succ n ih =>
    intro modules i h
    simp only [ignoreLoop]
    rcases hany : modules.any (shouldIgnore modules) with _ | _
    · rw [if_neg (by simp [hany])]
      exact h
    · rw [if_pos (by simp [hany])]
      exact ih (markIgnored modules) i (markIgnored_ignored_monotone modules i h)

/-- Each stage keeps each position's ignored flag once set. -/
theorem applyStage_ignored_monotone (stage : Stage) (modules : List Module) (i : Nat)
    (h : (modules.get? i).map (fun mod => mod.ignored) = some true) :
    (((applyStage stage modules).get? i).map (fun mod => mod.ignored) = some true) := by
  rcases Option.map_eq_some'.mp h with ⟨mod, hmod, hig⟩
  cases stage with
  | tagBabel =>
    simp only [applyStage]
    rw [List.get?_map, hmod]
    by_cases hm : regexTest arraySpreadRegex mod.originalCode = true <;>
      simp [BabelModuleFinder.evaluate, tagAsNpmModule, hm, hig]
  | tagNpmWhen recognizes packageName =>
    simp only [applyStage]
    rw [List.get?_map, hmod]
    by_cases hr : recognizes mod = true <;> simp [tagAsNpmModule, hr, hig]
  | ignoreWhen recognizes =>
    simp only [applyStage]
    rw [List.get?_map, hmod]
    by_cases hr : recognizes mod = true <;> simp [ignoreModule, hr, hig]
  | rewrite f =>
    simp only [applyStage]
    rw [List.get?_map, hmod]
    simp [applyRewrite, hig]
  | propagate agressiveCache =>
    cases agressiveCache with
    | true => exact h
    | false => exact ignoreLoop_ignored_monotone modules.length modules i h

/-- C5: the ignored flag is monotone across the whole run: whatever sequence
of tagging, ignore-propagation, editing, decompiling and output stages runs,
a module whose ignored flag is true keeps it true. -/
theorem ignored_monotone (stages : List Stage) (modules : List Module) (i : Nat)
    (h : (modules.get? i).map (fun mod => mod.ignored) = some true) :
    ((runStages stages modules).get? i).map (fun mod => mod.ignored) = some true := by
  induction stages generalizing modules with
  | nil => exact h
  | cons stage rest ih =>
    exact ih (applyStage stage modules) (applyStage_ignored_monotone stage modules i h)

/-- C5 witness data: a single already-ignored module. -/
def c5Module : Module :=
  { moduleId := 3, moduleName := none, dependencies := [], originalCode := "",
    moduleCode := "", ignored := true, isNpmModule := false,
    npmModuleName := none }

/-- C5 witness: after a tagging pass, a decompiling rewrite and the
transitive-ignore stage, the ignored module is still ignored. -/
theorem ignored_monotone_witness :
    ((runStages [Stage.tagBabel, Stage.rewrite id, Stage.propagate false]
        [c5Module]).get? 0).map (fun mod => mod.ignored) = some true :=
  ignored_monotone [Stage.tagBabel, Stage.rewrite id, Stage.propagate false]
    [c5Module] 0 (by decide)

/-- `modules.find(mod => mod?.moduleId === moduleId)`. -/
def findModule (modules : List Module) (moduleId : Nat) : Option Module :=
  modules.find? (fun mod => mod.moduleId == moduleId)

/-- The dependencies the worklist follows from an id: none when no module
carries the id. -/
def depsOf (modules : List Module) (moduleId : Nat) : List Nat :=
  match findModule modules moduleId with
  | some mod => mod.dependencies
  | none => []

/-- Whether some module of the graph carries the id. -/
def moduleExists (modules : List Module) (moduleId : Nat) : Bool :=
  (findModule modules moduleId).isSome

/-- One pass of the worklist: add every dependency of every member. -/
def closureStep (modules : List Module) (s : Finset Nat) : Finset Nat :=
  s ∪ s.biUnion (fun moduleId => (depsOf modules moduleId).toFinset)

/-- Iterate the worklist pass. -/
def closureIter (modules : List Module) : Nat → Finset Nat → Finset Nat
  | 0, s => s
  | fuel + 1, s => closureIter modules fuel (closureStep modules s)

/-- Every dependency id any module of the graph mentions. -/
def allDeps (modules : List Module) : Finset Nat :=
  modules.foldr (fun mod acc => mod.dependencies.toFinset ∪ acc) ∅

/-- Every id the worklist can ever hold: the entry and all dependency ids. -/
def closureUniverse (modules : List Module) (entry : Nat) : Finset Nat :=
  insert entry (allDeps modules)

/-- `entryModuleDependencies` at loop exit: iterating the pass beyond the
universe size reaches the fixed point. -/
def entryClosure (modules : List Module) (entry : Nat) : Finset Nat :=
  closureIter modules ((closureUniverse modules entry).card + 1) {entry}

/-- Reachability from the entry through `dependencies`, reflexive-transitive. -/
inductive Reachable (modules : List Module) (entry : Nat) : Nat → Prop
  | refl : Reachable modules entry entry
  | step {a b : Nat} : Reachable modules entry a → b ∈ depsOf modules a →
      Reachable modules entry b

/-- The entry filtering stage: build the reachable id set; a reachable id with
no module is a fatal error unless `agressiveCache` (then it is silently
skipped); the survivors are exactly the modules whose id is in the set. -/
def entryFilter (agressiveCache : Bool) (modules : List Module) (entry : Nat) :
    Except String (List Module) :=
  let closure := entryClosure modules entry
  if !agressiveCache &&
      decide (∃ moduleId ∈ closure, moduleExists modules moduleId = false) then
    Except.error "Failed to find entry module/dependency"
  else
    Except.ok (modules.filter (fun mod => decide (mod.moduleId ∈ closure)))

theorem subset_closureStep (modules : List Module) (s : Finset Nat) :
    s ⊆ closureStep modules s :=
  Finset.subset_union_left

theorem mem_allDeps_of_mem (modules : List Module) (mod : Module)
    (hmod : mod ∈ modules) (x : Nat) (hx : x ∈ mod.dependencies) :
    x ∈ allDeps modules := by
  induction modules with
  | nil => cases hmod
  | cons head tail ih =>
    unfold allDeps
    simp only [List.foldr_cons]
    rcases List.mem_cons.mp hmod with rfl | htail
    · exact Finset.mem_union_left _ (List.mem_toFinset.mpr hx)
    · exact Finset.mem_union_right _ (ih htail)

theorem depsOf_subset_allDeps (modules : List Module) (moduleId x : Nat)
    (hx : x ∈ depsOf modules moduleId) : x ∈ allDeps modules := by
  unfold depsOf at hx
  rcases hfind : findModule modules moduleId with _ | mod
  · rw [hfind] at hx; cases hx
  · rw [hfind] at hx
    exact mem_allDeps_of_mem modules mod
      (List.mem_of_find?_eq_some hfind) x hx

theorem closureStep_subset_universe (modules : List Module) (entry : Nat)
    (s : Finset Nat) (hs : s ⊆ closureUniverse modules entry) :
    closureStep modules s ⊆ closureUniverse modules entry := by
  unfold closureStep
  refine Finset.union_subset hs ?_
  intro x hx
  rcases Finset.mem_biUnion.mp hx with ⟨moduleId, _, hdep⟩
  exact Finset.mem_insert_of_mem
    (depsOf_subset_allDeps modules moduleId x (List.mem_toFinset.mp hdep))

theorem closureIter_subset_universe (modules : List Module) (entry : Nat)
    (fuel : Nat) :
    ∀ s : Finset Nat, s ⊆ closureUniverse modules entry →
    closureIter modules fuel s ⊆ closureUniverse modules entry := by
  induction fuel with
  | zero => intro s hs; exact hs
  | succ n ih =>
    intro s hs
    exact ih (closureStep modules s) (closureStep_subset_universe modules entry s hs)

theorem closureIter_of_fixed (modules : List Module) (fuel : Nat) :
    ∀ s : Finset Nat, closureStep modules s = s → closureIter modules fuel s = s := by
  induction fuel with
  | zero => intro s _; rfl
  | succ n ih =>
    intro s hfix
    simp only [closureIter, hfix]
    exact ih s hfix

theorem subset_closureIter (modules : List Module) (fuel : Nat) :
    ∀ s : Finset Nat, s ⊆ closureIter modules fuel s := by
  induction fuel with
  | zero => intro s; exact Finset.Subset.refl s
  | succ n ih =>
    intro s
    exact Finset.Subset.trans (subset_closureStep modules s) (ih (closureStep modules s))

theorem closureIter_fixed_or_card (modules : List Module) (fuel : Nat) :
    ∀ s : Finset Nat,
    closureStep modules (closureIter modules fuel s) = closureIter modules fuel s ∨
    s.card + fuel ≤ (closureIter modules fuel s).card := by
  induction fuel with
  | zero =>
    intro s
    right
    simp [closureIter]
  | succ n ih =>
    intro s
    by_cases hfix : closureStep modules s = s
    · left
      have hids : closureIter modules (n + 1) s = s := by
        simp only [closureIter, hfix]
        exact closureIter_of_fixed modules n s hfix
      rw [hids, hfix]
    · have hss : s ⊂ closureStep modules s :=
        HasSubset.Subset.ssubset_of_ne (subset_closureStep modules s)
          (fun heq => hfix heq.symm)
      have hcard : s.card + 1 ≤ (closureStep modules s).card :=
        Finset.card_lt_card hss
      rcases ih (closureStep modules s) with hl | hr
      · left
        simpa only [closureIter] using hl
      · right
        simp only [closureIter]
        omega

theorem closureStep_entryClosure (modules : List Module) (entry : Nat) :
    closureStep modules (entryClosure modules entry) = entryClosure modules entry := by
  have hsub : ({entry} : Finset Nat) ⊆ closureUniverse modules entry := by
    intro x hx
    rw [Finset.mem_singleton.mp hx]
    exact Finset.mem_insert_self entry (allDeps modules)
  rcases closureIter_fixed_or_card modules ((closureUniverse modules entry).card + 1)
      ({entry} : Finset Nat) with hl | hr
  · exact hl
  · exfalso
    have hle : (closureIter modules ((closureUniverse modules entry).card + 1)
        ({entry} : Finset Nat)).card ≤ (closureUniverse modules entry).card :=
      Finset.card_le_card
        (closureIter_subset_universe modules entry _ _ hsub)
    simp only [Finset.card_singleton] at hr
    omega

theorem entry_mem_entryClosure (modules : List Module) (entry : Nat) :
    entry ∈ entryClosure modules entry :=
  subset_closureIter modules _ {entry} (Finset.mem_singleton_self entry)

theorem closureIter_sound (modules : List Module) (entry : Nat) (fuel : Nat) :
    ∀ s : Finset Nat, (∀ x ∈ s, Reachable modules entry x) →
    ∀ x ∈ closureIter modules fuel s, Reachable modules entry x := by
  induction fuel with
  | zero => intro s hs x hx; exact hs x hx
  | succ n ih =>
    intro s hs
    refine ih (closureStep modules s) ?_
    intro x hx
    rcases Finset.mem_union.mp hx with hmem | hdep
    · exact hs x hmem
    · rcases Finset.mem_biUnion.mp hdep with ⟨moduleId, hid, hxdep⟩
      exact Reachable.step (hs moduleId hid) (List.mem_toFinset.mp hxdep)

theorem reachable_mem_entryClosure (modules : List Module) (entry x : Nat)
    (h : Reachable modules entry x) : x ∈ entryClosure modules entry := by
  induction h with
  | refl => exact entry_mem_entryClosure modules entry
  | step ha hdep ih =>
    rw [← closureStep_entryClosure modules entry]
    refine Finset.mem_union_right _ ?_
    exact Finset.mem_biUnion.mpr ⟨_, ih, List.mem_toFinset.mpr hdep⟩

/-- The worklist's fixed point holds exactly the ids reachable from the
entry. -/
theorem mem_entryClosure_iff (modules : List Module) (entry x : Nat) :
    x ∈ entryClosure modules entry ↔ Reachable modules entry x := by
  constructor
  · intro hx
    refine closureIter_sound modules entry _ {entry} ?_ x hx
    intro y hy
    rw [Finset.mem_singleton.mp hy]
    exact Reachable.refl
  · exact reachable_mem_entryClosure modules entry x

/-- C3: with an entry module and no aggressive cache, the filtering stage
keeps a module iff its id is reachable from the entry through `dependencies`
(reflexive-transitive closure), and it raises the fatal
`Failed to find entry module/dependency` error iff some reachable id has no
module in the graph; with the aggressive cache a missing dependency is
silently skipped and the same reachability filter is applied. -/
theorem entryFilter_spec (modules : List Module) (entry : Nat) :
    (∀ survivors, entryFilter false modules entry = Except.ok survivors →
      ∀ mod, mod ∈ survivors ↔
        mod ∈ modules ∧ Reachable modules entry mod.moduleId) ∧
    ((∃ msg, entryFilter false modules entry = Except.error msg) ↔
      ∃ moduleId, Reachable modules entry moduleId ∧
        moduleExists modules moduleId = false) ∧
    (∃ survivors, entryFilter true modules entry = Except.ok survivors ∧
      ∀ mod, mod ∈ survivors ↔
        mod ∈ modules ∧ Reachable modules entry mod.moduleId) := by
  refine ⟨?_, ?_, ?_⟩
  · intro survivors hok mod
    unfold entryFilter at hok
    by_cases hmiss : ∃ moduleId ∈ entryClosure modules entry,
        moduleExists modules moduleId = false
    · rw [if_pos (by simpa using hmiss)] at hok
      exact Except.noConfusion hok
    · rw [if_neg (by simpa using hmiss)] at hok
      have hs := (Except.ok.injEq _ _).mp hok
      rw [← hs]
      rw [List.mem_filter]
      simp [mem_entryClosure_iff]
  · constructor
    · rintro ⟨msg, herr⟩
      unfold entryFilter at herr
      by_cases hmiss : ∃ moduleId ∈ entryClosure modules entry,
          moduleExists modules moduleId = false
      · rcases hmiss with ⟨moduleId, hmem, hex⟩
        exact ⟨moduleId, (mem_entryClosure_iff modules entry moduleId).mp hmem, hex⟩
      · rw [if_neg (by simpa using hmiss)] at herr
        exact Except.noConfusion herr
    · rintro ⟨moduleId, hreach, hex⟩
      refine ⟨"Failed to find entry module/dependency", ?_⟩
      unfold entryFilter
      rw [if_pos]
      simp only [Bool.not_false, Bool.true_and, decide_eq_true_eq]
      exact ⟨moduleId, reachable_mem_entryClosure modules entry moduleId hreach, hex⟩
  · refine ⟨modules.filter
      (fun mod => decide (mod.moduleId ∈ entryClosure modules entry)), ?_, ?_⟩
    · unfold entryFilter
      rw [if_neg (by simp)]
    · intro mod
      rw [List.mem_filter]
      simp [mem_entryClosure_iff]

end Decompiler
